import Mathlib

/-!
Verification development for the mango cross-margin lending engine
(src/program/src/state.rs, src/program/src/processor.rs).

Modelling conventions.

* The fixed-point type `U64F64` (64 integer bits, 64 fractional bits) is
  embedded as its raw `Nat` value: a raw `x` denotes the rational `x / 2^64`,
  and a well-formed raw value is `< 2^128`.
* Every fixed-point operation is partial (`Option Nat`).  `checked_*`
  operations of the source return `None` exactly on overflow / underflow /
  division by zero, and the source immediately `unwrap`s or `ok_or`s them, so
  a `none` here is a failed instruction.  The source's plain `*`, `/`, `+`,
  `-` on `U64F64` and `u64` are likewise modelled as failing on overflow,
  underflow and division by zero: the error-handling design of the program
  (arithmetic failures are always fatal to the operation, never silently
  wrapped) treats an overflow of an unchecked operation as an aborted
  instruction as well.
* `NUM_TOKENS = 3`, `NUM_MARKETS = 2` as in state.rs.  Token arrays are
  functions out of `Fin 3`.
* External collaborators are inputs: oracle prices arrive as a price vector,
  the serum open-orders balances as an optional pair
  `(native_coin_total, native_pc_total)` per market, vault balance deltas of
  the dex as plain numbers, and the clock as a timestamp.  Account loading,
  signature and key checks concern the runtime substrate and are outside the
  ledger state modelled here.
* An instruction is a function `state → Option state`: `none` is a failed
  (hence entirely rolled back) invocation, `some` a committed one.
-/

/-- Scale factor of `U64F64`: one in fixed-point, `2 ^ 64`. -/
def W : Nat := 2 ^ 64

/-- First raw value that no longer fits in `U64F64`: `2 ^ 128`. -/
def FMAX : Nat := 2 ^ 128

/-- Range check shared by all checked fixed-point operations. -/
def fchk (x : Nat) : Option Nat := if x < FMAX then some x else none

/-- `U64F64` multiplication: full product, truncated to the `2⁻⁶⁴` grid,
`none` on overflow. -/
def fmul (a b : Nat) : Option Nat := fchk (a * b / W)

/-- `U64F64` division: `none` on division by zero or overflow. -/
def fdiv (a b : Nat) : Option Nat := if b = 0 then none else fchk (a * W / b)

/-- `U64F64` addition, `none` on overflow. -/
def fadd (a b : Nat) : Option Nat := fchk (a + b)

/-- `U64F64` subtraction, `none` on underflow. -/
def fsub (a b : Nat) : Option Nat := if b ≤ a then some (a - b) else none

/-- `U64F64::from_num` on a `u64` quantity. -/
def fromU64 (q : Nat) : Nat := q * W

/-- `U64F64::to_num::<u64>()`: truncation toward zero. -/
def toU64 (x : Nat) : Nat := x / W

/-- `U64F64::checked_ceil`: round up to an integer, `none` on overflow. -/
def fceil (x : Nat) : Option Nat := fchk ((x + W - 1) / W * W)

/-- `NUM_TOKENS` of state.rs. -/
def NUM_TOKENS : Nat := 3

/-- Seconds per year, the `YEAR` constant of state.rs. -/
def YEAR : Nat := 31536000

/-- `U64F64::from_num(0.7)` of `get_interest_rate` (the `f64` literal `0.7`
is `3152519739159347 × 2⁻⁵²`, whose raw value is exact). -/
def optimalUtilRaw : Nat := 12912720851596685312

/-- `U64F64::from_num(0.10)` of `get_interest_rate` (`0.10f64`
is `7205759403792794 × 2⁻⁵⁶`). -/
def pointTenRaw : Nat := 1844674407370955264

/-- `U64F64::from_num(1.01)` of `Processor::liquidate` (`1.01f64`
is `4547473508864641 × 2⁻⁵²` rounded to nearest, raw value exact). -/
def onePointOhOneRaw : Nat := 18631211514446647296

/-- `MangoIndex` of state.rs: interest bookkeeping of one token. -/
structure MangoIndex where
  last_update : Nat
  borrow : Nat
  deposit : Nat
  deriving DecidableEq

/-- The ledger core of `MangoGroup` (state.rs): per-token aggregates and the
risk parameters.  Pubkeys, vault/oracle bindings and decimals belong to the
runtime plumbing and are not part of the accounting state. -/
structure MangoGroup where
  indexes : Fin 3 → MangoIndex
  total_deposits : Fin 3 → Nat
  total_borrows : Fin 3 → Nat
  maint_coll_ratio : Nat
  init_coll_ratio : Nat
  borrow_limits : Fin 3 → Nat

/-- The ledger core of `MarginAccount` (state.rs).  The owner identity is an
abstract number (a pubkey in the source). -/
structure MarginAccount where
  owner : Nat
  deposits : Fin 3 → Nat
  borrows : Fin 3 → Nat

/-- Open-orders inputs: for each of the two markets, `none` when the margin
account's open-orders key is the default pubkey, otherwise the record's
`(native_coin_total, native_pc_total)`. -/
def OpenOrders := Fin 2 → Option (Nat × Nat)

/-- `MangoGroup::get_interest_rate` (state.rs): piecewise-linear utilization
curve, maximum rate when native deposits do not exceed native borrows. -/
def get_interest_rate (g : MangoGroup) (i : Fin 3) : Option Nat := do
  let optimal_r ← fdiv pointTenRaw (fromU64 YEAR)
  let max_r ← fdiv (fromU64 1) (fromU64 YEAR)
  let idx := g.indexes i
  let native_deposits ← fmul idx.deposit (g.total_deposits i)
  let native_borrows ← fmul idx.borrow (g.total_borrows i)
  if native_deposits ≤ native_borrows then
    pure max_r
  else do
    let utilization ← fdiv native_borrows native_deposits
    if optimalUtilRaw < utilization then do
      let extra_util := utilization - optimalUtilRaw
      let slope ← fdiv (max_r - optimal_r) (fromU64 1 - optimalUtilRaw)
      fadd optimal_r (← fmul slope extra_util)
    else do
      let slope ← fdiv optimal_r optimalUtilRaw
      fmul slope utilization

/-- One iteration of the token loop of `MangoGroup::update_indexes`
(state.rs).  The interest rate is computed before the skip test, as in the
source; the timestamp difference is the source's `u64` subtraction, failing
when the clock is behind the index. -/
def update_token (ts : Nat) (g : MangoGroup) (i : Fin 3) : Option MangoGroup := do
  let interest_rate ← get_interest_rate g i
  let idx := g.indexes i
  if idx.last_update = ts ∨ g.total_deposits i = 0 then
    pure g
  else do
    let native_deposits ← fmul (g.total_deposits i) idx.deposit
    let native_borrows ← fmul (g.total_borrows i) idx.borrow
    if native_borrows ≤ native_deposits then do
      let utilization ← fdiv native_borrows native_deposits
      if idx.last_update ≤ ts then do
        let borrow_interest ← fmul interest_rate (fromU64 (ts - idx.last_update))
        let deposit_interest ← fmul borrow_interest utilization
        let b ← fadd (← fmul idx.borrow borrow_interest) idx.borrow
        let d ← fadd (← fmul idx.deposit deposit_interest) idx.deposit
        pure { g with indexes :=
          Function.update g.indexes i ⟨ts, b, d⟩ }
      else none
    else none

/-- `MangoGroup::update_indexes` (state.rs): refresh all three tokens. -/
def update_indexes (g : MangoGroup) (ts : Nat) : Option MangoGroup := do
  let g ← update_token ts g 0
  let g ← update_token ts g 1
  update_token ts g 2

/-- `MangoGroup::get_total_native_deposit` (state.rs): aggregate deposit
shares times deposit index, floored to a `u64`. -/
def get_total_native_deposit (g : MangoGroup) (i : Fin 3) : Option Nat := do
  let x ← fmul (g.total_deposits i) (g.indexes i).deposit
  pure (toU64 x)

/-- `MangoGroup::get_total_native_borrow` (state.rs): aggregate borrow shares
times borrow index, rounded up to a `u64`. -/
def get_total_native_borrow (g : MangoGroup) (i : Fin 3) : Option Nat := do
  let x ← fmul (g.total_borrows i) (g.indexes i).borrow
  let c ← fceil x
  pure (toU64 c)

/-- `MangoGroup::has_valid_deposits_borrows` (state.rs): the native-unit
solvency test of one token. -/
def has_valid_deposits_borrows (g : MangoGroup) (i : Fin 3) : Option Bool := do
  let d ← get_total_native_deposit g i
  let b ← get_total_native_borrow g i
  pure (b ≤ d)

/-- `MarginAccount::get_native_borrow` (state.rs). -/
def get_native_borrow (idx : MangoIndex) (a : MarginAccount) (i : Fin 3) :
    Option Nat := do
  let x ← fmul (a.borrows i) idx.borrow
  pure (toU64 x)

/-- `MarginAccount::get_native_deposit` (state.rs). -/
def get_native_deposit (idx : MangoIndex) (a : MarginAccount) (i : Fin 3) :
    Option Nat := do
  let x ← fmul (a.deposits i) idx.deposit
  pure (toU64 x)

/-- `checked_add_deposit` (processor.rs): credit deposit shares to the margin
account and the group aggregate in one call. -/
def checked_add_deposit (g : MangoGroup) (a : MarginAccount) (i : Fin 3)
    (v : Nat) : Option (MangoGroup × MarginAccount) := do
  let ad ← fadd (a.deposits i) v
  let gd ← fadd (g.total_deposits i) v
  pure ({ g with total_deposits := Function.update g.total_deposits i gd },
        { a with deposits := Function.update a.deposits i ad })

/-- `checked_sub_deposit` (processor.rs). -/
def checked_sub_deposit (g : MangoGroup) (a : MarginAccount) (i : Fin 3)
    (v : Nat) : Option (MangoGroup × MarginAccount) := do
  let ad ← fsub (a.deposits i) v
  let gd ← fsub (g.total_deposits i) v
  pure ({ g with total_deposits := Function.update g.total_deposits i gd },
        { a with deposits := Function.update a.deposits i ad })

/-- `checked_add_borrow` (processor.rs). -/
def checked_add_borrow (g : MangoGroup) (a : MarginAccount) (i : Fin 3)
    (v : Nat) : Option (MangoGroup × MarginAccount) := do
  let ab ← fadd (a.borrows i) v
  let gb ← fadd (g.total_borrows i) v
  pure ({ g with total_borrows := Function.update g.total_borrows i gb },
        { a with borrows := Function.update a.borrows i ab })

/-- `checked_sub_borrow` (processor.rs). -/
def checked_sub_borrow (g : MangoGroup) (a : MarginAccount) (i : Fin 3)
    (v : Nat) : Option (MangoGroup × MarginAccount) := do
  let ab ← fsub (a.borrows i) v
  let gb ← fsub (g.total_borrows i) v
  pure ({ g with total_borrows := Function.update g.total_borrows i gb },
        { a with borrows := Function.update a.borrows i ab })

/-- One market's contribution step of `get_assets_val` (state.rs): skipped
when the open-orders key is the default pubkey, otherwise the record's total
coin balance at the market price plus its total quote balance. -/
def assets_open_orders_step (prices : Fin 3 → Nat) (oo : OpenOrders)
    (m : Fin 2) (assets : Nat) : Option Nat :=
  match oo m with
  | none => some assets
  | some (coin_total, pc_total) => do
      let v ← fmul (fromU64 coin_total) (prices ⟨m.val, by omega⟩)
      let v ← fadd v (fromU64 pc_total)
      fadd v assets

/-- One token's deposit-valuation step of `get_assets_val` (state.rs). -/
def assets_deposit_step (g : MangoGroup) (a : MarginAccount)
    (prices : Fin 3 → Nat) (i : Fin 3) (assets : Nat) : Option Nat := do
  let native_deposits ← fmul (g.indexes i).deposit (a.deposits i)
  let v ← fmul native_deposits (prices i)
  fadd v assets

/-- `MarginAccount::get_assets_val` (state.rs): open-orders balances valued
first (quote total at price one), then deposits at the current deposit
index. -/
def get_assets_val (g : MangoGroup) (a : MarginAccount)
    (prices : Fin 3 → Nat) (oo : OpenOrders) : Option Nat := do
  let assets ← assets_open_orders_step prices oo 0 0
  let assets ← assets_open_orders_step prices oo 1 assets
  let assets ← assets_deposit_step g a prices 0 assets
  let assets ← assets_deposit_step g a prices 1 assets
  assets_deposit_step g a prices 2 assets

/-- One token's step of `get_liabs_val` (state.rs). -/
def liabs_step (g : MangoGroup) (a : MarginAccount) (prices : Fin 3 → Nat)
    (i : Fin 3) (liabs : Nat) : Option Nat := do
  let native_borrows ← fmul (g.indexes i).borrow (a.borrows i)
  let v ← fmul native_borrows (prices i)
  fadd liabs v

/-- `MarginAccount::get_liabs_val` (state.rs): borrow shares times borrow
index times price, summed over all tokens. -/
def get_liabs_val (g : MangoGroup) (a : MarginAccount)
    (prices : Fin 3 → Nat) : Option Nat := do
  let liabs ← liabs_step g a prices 0 0
  let liabs ← liabs_step g a prices 1 liabs
  liabs_step g a prices 2 liabs

/-- `MarginAccount::get_collateral_ratio` (state.rs): assets over
liabilities, `U64F64::MAX` when the account has no liabilities. -/
def get_collateral_ratio (g : MangoGroup) (a : MarginAccount)
    (prices : Fin 3 → Nat) (oo : OpenOrders) : Option Nat := do
  let assets ← get_assets_val g a prices oo
  let liabs ← get_liabs_val g a prices
  if liabs = 0 then pure (FMAX - 1) else fdiv assets liabs

/-- `MarginAccount::get_total_liabs` (state.rs): per-token native borrow. -/
def get_total_liabs (g : MangoGroup) (a : MarginAccount) (i : Fin 3) :
    Option Nat :=
  get_native_borrow (g.indexes i) a i

/-- The ledger effect of `Processor::init_mango_group` (processor.rs): both
indexes start at exactly one, `last_update` at the genesis clock and, the
record being zero-initialised, all aggregates at zero. -/
def init_mango_group (maint init_ratio : Nat) (limits : Fin 3 → Nat)
    (ts : Nat) : MangoGroup where
  indexes := fun _ => ⟨ts, fromU64 1, fromU64 1⟩
  total_deposits := fun _ => 0
  total_borrows := fun _ => 0
  maint_coll_ratio := maint
  init_coll_ratio := init_ratio
  borrow_limits := limits

/-- The ledger effect of `Processor::init_margin_account` (processor.rs). -/
def init_margin_account (owner : Nat) : MarginAccount where
  owner := owner
  deposits := fun _ => 0
  borrows := fun _ => 0

/-- `Processor::deposit` (processor.rs): refresh indexes, then credit
`quantity / deposit_index` shares.  No collateral check. -/
def deposit (g : MangoGroup) (a : MarginAccount) (i : Fin 3) (quantity : Nat)
    (ts : Nat) : Option (MangoGroup × MarginAccount) := do
  let g ← update_indexes g ts
  let v ← fdiv (fromU64 quantity) (g.indexes i).deposit
  checked_add_deposit g a i v

/-- `Processor::withdraw` (processor.rs): refresh indexes, require the native
deposit to cover the quantity, debit `quantity / deposit_index` shares, then
require the collateral ratio to stay at or above `init_coll_ratio` and the
token's pool solvency check to pass. -/
def withdraw (g : MangoGroup) (a : MarginAccount) (prices : Fin 3 → Nat)
    (oo : OpenOrders) (i : Fin 3) (quantity : Nat) (ts : Nat) :
    Option (MangoGroup × MarginAccount) := do
  let g ← update_indexes g ts
  let native_deposits ← fmul (a.deposits i) (g.indexes i).deposit
  let available := toU64 native_deposits
  if quantity ≤ available then do
    let withdrew ← fdiv (fromU64 quantity) (g.indexes i).deposit
    let (g, a) ← checked_sub_deposit g a i withdrew
    let coll_ratio ← get_collateral_ratio g a prices oo
    if g.init_coll_ratio ≤ coll_ratio then do
      let ok ← has_valid_deposits_borrows g i
      if ok then pure (g, a) else none
    else none
  else none

/-- `Processor::borrow` (processor.rs): refresh indexes, credit the borrowed
amount as deposit shares and debt as borrow shares, then require the
collateral ratio at or above `init_coll_ratio`, pool solvency for the token,
and the borrow limit. -/
def borrow (g : MangoGroup) (a : MarginAccount) (prices : Fin 3 → Nat)
    (oo : OpenOrders) (i : Fin 3) (quantity : Nat) (ts : Nat) :
    Option (MangoGroup × MarginAccount) := do
  let g ← update_indexes g ts
  let idx := g.indexes i
  let b ← fdiv (fromU64 quantity) idx.borrow
  let d ← fdiv (fromU64 quantity) idx.deposit
  let (g, a) ← checked_add_deposit g a i d
  let (g, a) ← checked_add_borrow g a i b
  let coll_ratio ← get_collateral_ratio g a prices oo
  if g.init_coll_ratio ≤ coll_ratio then do
    let ok ← has_valid_deposits_borrows g i
    if ok then do
      let nb ← get_native_borrow idx a i
      if nb ≤ g.borrow_limits i then pure (g, a) else none
    else none
  else none

/-- `settle_borrow_unchecked` (processor.rs): clamp the quantity to the
account's native borrow and native deposit, convert to shares by the two
indexes, and net it out of deposit and borrow of both the account and the
group. -/
def settle_borrow_unchecked (g : MangoGroup) (a : MarginAccount) (i : Fin 3)
    (quantity : Nat) : Option (MangoGroup × MarginAccount) := do
  let idx := g.indexes i
  let native_borrow ← get_native_borrow idx a i
  let native_deposit ← get_native_deposit idx a i
  let q := min (min quantity native_borrow) native_deposit
  let borr_settle ← fdiv (fromU64 q) idx.borrow
  let dep_settle ← fdiv (fromU64 q) idx.deposit
  let (g, a) ← checked_sub_deposit g a i dep_settle
  checked_sub_borrow g a i borr_settle

/-- `settle_borrow_full_unchecked` (processor.rs): settle the whole
overlap of native borrow and native deposit. -/
def settle_borrow_full_unchecked (g : MangoGroup) (a : MarginAccount)
    (i : Fin 3) : Option (MangoGroup × MarginAccount) := do
  let idx := g.indexes i
  let native_borrow ← get_native_borrow idx a i
  let native_deposit ← get_native_deposit idx a i
  let q := min native_borrow native_deposit
  let borr_settle ← fdiv (fromU64 q) idx.borrow
  let dep_settle ← fdiv (fromU64 q) idx.deposit
  let (g, a) ← checked_sub_deposit g a i dep_settle
  checked_sub_borrow g a i borr_settle

/-- `Processor::settle_borrow` (processor.rs): refresh indexes, then settle. -/
def settle_borrow (g : MangoGroup) (a : MarginAccount) (i : Fin 3)
    (quantity : Nat) (ts : Nat) : Option (MangoGroup × MarginAccount) := do
  let g ← update_indexes g ts
  settle_borrow_unchecked g a i quantity

/-- `socialize_loss` (processor.rs): write the value off the liquidated
account's borrow shares at the borrow index, then shrink the token's deposit
index by `reduce_quantity_native / total_native_deposit`. -/
def socialize_loss (g : MangoGroup) (a : MarginAccount) (i : Fin 3)
    (reduce_quantity_native : Nat) : Option (MangoGroup × MarginAccount) := do
  let quantity ← fdiv reduce_quantity_native (g.indexes i).borrow
  let (g, a) ← checked_sub_borrow g a i quantity
  let tn ← get_total_native_deposit g i
  let percentage_loss ← fdiv reduce_quantity_native (fromU64 tn)
  let dec ← fmul percentage_loss (g.indexes i).deposit
  let d ← fsub (g.indexes i).deposit dec
  let idx : MangoIndex := ⟨(g.indexes i).last_update, (g.indexes i).borrow, d⟩
  pure ({ g with indexes := Function.update g.indexes i idx }, a)

/-- The settle-borrow pass of `Processor::liquidate` (processor.rs): for
every token, settle the account's full native borrow against its own
deposits. -/
def liquidate_settle_pass (g : MangoGroup) (a : MarginAccount) :
    Option (MangoGroup × MarginAccount) := do
  let nb0 ← get_native_borrow (g.indexes 0) a 0
  let (g, a) ← settle_borrow_unchecked g a 0 nb0
  let nb1 ← get_native_borrow (g.indexes 1) a 1
  let (g, a) ← settle_borrow_unchecked g a 1 nb1
  let nb2 ← get_native_borrow (g.indexes 2) a 2
  settle_borrow_unchecked g a 2 nb2

/-- `reduction_val` of `Processor::liquidate` (processor.rs): the quote
value by which liabilities must shrink to bring the ratio to 1.01,
`liabs_val - assets_val / 1.01`. -/
def reduction_val (liabs_val assets_val : Nat) : Option Nat := do
  fsub liabs_val (← fdiv assets_val onePointOhOneRaw)

/-- `token_reduce` of `Processor::liquidate` (processor.rs): one token's
share of the reduction value, `(liabs[i] / liabs_val) * reduction_val` in
native units of the token. -/
def token_reduce (liab_i liabs_val rv : Nat) : Option Nat := do
  let proportion ← fdiv (fromU64 liab_i) liabs_val
  fmul proportion rv

/-- The insolvency branch of `Processor::liquidate` (processor.rs):
socialize each token's proportional share of the reduction value.  The
per-token native liabilities, their value and the assets value are read
once, before the loop. -/
def liquidate_socialize_pass (g : MangoGroup) (a : MarginAccount)
    (prices : Fin 3 → Nat) (oo : OpenOrders) :
    Option (MangoGroup × MarginAccount) := do
  let l0 ← get_total_liabs g a 0
  let l1 ← get_total_liabs g a 1
  let l2 ← get_total_liabs g a 2
  let liabs_val ← get_liabs_val g a prices
  let assets_val ← get_assets_val g a prices oo
  let rv ← reduction_val liabs_val assets_val
  let (g, a) ← socialize_loss g a 0 (← token_reduce l0 liabs_val rv)
  let (g, a) ← socialize_loss g a 1 (← token_reduce l1 liabs_val rv)
  socialize_loss g a 2 (← token_reduce l2 liabs_val rv)

/-- The liquidator-deposit pass of `Processor::liquidate` (processor.rs):
each nonzero supplied quantity is pulled in and credited as deposit shares
at the current deposit index. -/
def liquidate_deposit_pass (g : MangoGroup) (a : MarginAccount)
    (dq : Fin 3 → Nat) : Option (MangoGroup × MarginAccount) := do
  let step := fun (i : Fin 3) (s : MangoGroup × MarginAccount) => do
    if dq i = 0 then pure s
    else do
      let v ← fdiv (fromU64 (dq i)) ((s.1.indexes i).deposit)
      checked_add_deposit s.1 s.2 i v
  let s ← step 0 (g, a)
  let s ← step 1 s
  step 2 s

/-- `Processor::liquidate` (processor.rs): refresh indexes; require the
ratio below `maint_coll_ratio`; settle borrows; stop if that restored
maintenance health; socialize losses when insolvent; credit the
liquidator's deposits; require `init_coll_ratio` restored; transfer
ownership to the liquidator. -/
def liquidate (g : MangoGroup) (a : MarginAccount) (prices : Fin 3 → Nat)
    (oo : OpenOrders) (dq : Fin 3 → Nat) (liqor : Nat) (ts : Nat) :
    Option (MangoGroup × MarginAccount) := do
  let g ← update_indexes g ts
  let coll_ratio ← get_collateral_ratio g a prices oo
  if coll_ratio < g.maint_coll_ratio then do
    let (g, a) ← liquidate_settle_pass g a
    let coll_ratio ← get_collateral_ratio g a prices oo
    if g.maint_coll_ratio ≤ coll_ratio then pure (g, a)
    else do
      let (g, a) ←
        if coll_ratio < fromU64 1 then liquidate_socialize_pass g a prices oo
        else pure (g, a)
      let (g, a) ← liquidate_deposit_pass g a dq
      let coll_ratio ← get_collateral_ratio g a prices oo
      if g.init_coll_ratio ≤ coll_ratio then
        pure (g, { a with owner := liqor })
      else none
  else none

/-- The order side of the serum dex. -/
inductive Side where
  | bid
  | ask
  deriving DecidableEq

/-- The traded token of `Processor::place_order` (processor.rs): the quote
token (index `NUM_MARKETS = 2`) for a bid, the market's base token for an
ask. -/
def order_token (market_i : Fin 2) (side : Side) : Fin 3 :=
  match side with
  | Side.bid => 2
  | Side.ask => ⟨market_i.val, by omega⟩

/-- `Processor::place_order` (processor.rs).  `spent` is the vault balance
drained by the dex invocation (`pre_amount - post_amount`); the order
placement itself happens on the external venue.  In reduce-only mode (entry
ratio below `init_coll_ratio`) any new borrow aborts; otherwise the final
ratio must be at or above `init_coll_ratio`; pool solvency of the traded
token is checked last. -/
def place_order (g : MangoGroup) (a : MarginAccount) (prices : Fin 3 → Nat)
    (oo : OpenOrders) (market_i : Fin 2) (side : Side) (spent : Nat)
    (ts : Nat) : Option (MangoGroup × MarginAccount) := do
  let g ← update_indexes g ts
  let coll_ratio ← get_collateral_ratio g a prices oo
  let reduce_only := coll_ratio < g.init_coll_ratio
  let token_i := order_token market_i side
  let idx := g.indexes token_i
  let native_deposit ← get_native_deposit idx a token_i
  let (g, a) ←
    if spent ≤ native_deposit then do
      let spent_deposit ← fdiv (fromU64 spent) idx.deposit
      checked_sub_deposit g a token_i spent_deposit
    else do
      let avail_deposit := a.deposits token_i
      let (g, a) ← checked_sub_deposit g a token_i avail_deposit
      let rem_spend := fromU64 (spent - native_deposit)
      if reduce_only then none
      else do
        let (g, a) ← checked_add_borrow g a token_i (← fdiv rem_spend idx.borrow)
        let nb ← get_native_borrow idx a token_i
        if nb ≤ g.borrow_limits token_i then pure (g, a) else none
  let coll_ratio ← get_collateral_ratio g a prices oo
  if reduce_only ∨ g.init_coll_ratio ≤ coll_ratio then do
    let ok ← has_valid_deposits_borrows g token_i
    if ok then pure (g, a) else none
  else none

/-- The settlement tail of `Processor::place_and_settle` (processor.rs),
after the side-dependent selection of in/out tokens and vault balances.  A
net outflow is paid from deposits and only the remainder borrowed (refused
in reduce-only mode); inflows are credited as deposits; both tokens are
then net-settled against the account's own borrows. -/
def place_and_settle_core (g : MangoGroup) (a : MarginAccount)
    (prices : Fin 3 → Nat) (oo : OpenOrders) (reduce_only : Prop)
    [Decidable reduce_only] (in_token_i out_token_i : Fin 3)
    (pre_in pre_out post_in post_out : Nat) :
    Option (MangoGroup × MarginAccount) := do
  let out_index := g.indexes out_token_i
  let in_index := g.indexes in_token_i
  let (g, a) ←
    if post_out < pre_out then do
      let total_out := pre_out - post_out
      let native_deposit ← get_native_deposit out_index a out_token_i
      if native_deposit < total_out then do
        let avail_deposit := a.deposits out_token_i
        let (g, a) ← checked_sub_deposit g a out_token_i avail_deposit
        let rem_spend := fromU64 (total_out - native_deposit)
        if reduce_only then none
        else do
          let (g, a) ←
            checked_add_borrow g a out_token_i (← fdiv rem_spend out_index.borrow)
          let nb ← get_native_borrow out_index a out_token_i
          if nb ≤ g.borrow_limits out_token_i then pure (g, a) else none
      else do
        let mango_spent ← fdiv (fromU64 total_out) out_index.deposit
        checked_sub_deposit g a out_token_i mango_spent
    else do
      let v ← fdiv (fromU64 (post_out - pre_out)) out_index.deposit
      checked_add_deposit g a out_token_i v
  if post_in < pre_in then none
  else do
    let total_in ← fdiv (fromU64 (post_in - pre_in)) in_index.deposit
    let (g, a) ← checked_add_deposit g a in_token_i total_in
    let (g, a) ← settle_borrow_full_unchecked g a out_token_i
    let (g, a) ← settle_borrow_full_unchecked g a in_token_i
    let coll_ratio ← get_collateral_ratio g a prices oo
    if reduce_only ∨ g.init_coll_ratio ≤ coll_ratio then do
      let ok ← has_valid_deposits_borrows g out_token_i
      if ok then pure (g, a) else none
    else none

/-- `Processor::place_and_settle` (processor.rs): refresh indexes, fix the
reduce-only mode from the entry ratio, select the in/out tokens and vault
balance pairs by the order side, and run the settlement core. -/
def place_and_settle (g : MangoGroup) (a : MarginAccount)
    (prices : Fin 3 → Nat) (oo : OpenOrders) (market_i : Fin 2) (side : Side)
    (pre_base pre_quote post_base post_quote : Nat) (ts : Nat) :
    Option (MangoGroup × MarginAccount) := do
  let g ← update_indexes g ts
  let coll_ratio ← get_collateral_ratio g a prices oo
  let reduce_only := coll_ratio < g.init_coll_ratio
  let base_token : Fin 3 := ⟨market_i.val, by omega⟩
  match side with
  | Side.bid =>
      place_and_settle_core g a prices oo reduce_only base_token 2
        pre_base pre_quote post_base post_quote
  | Side.ask =>
      place_and_settle_core g a prices oo reduce_only 2 base_token
        pre_quote pre_base post_quote post_base

/-- Iterated index refresh: one `update_indexes` call per listed timestamp. -/
def apply_updates (g : MangoGroup) (l : List Nat) : Option MangoGroup :=
  l.foldlM update_indexes g

/-- A fresh index pair at genesis time zero. -/
def onesIdx : MangoIndex := ⟨0, fromU64 1, fromU64 1⟩

/-- Price vector with every price one (the quote price is always one). -/
def pricesOne : Fin 3 → Nat := fun _ => fromU64 1

/-- No open-orders account on either market. -/
def ooEmpty : OpenOrders := fun _ => none

/-- Maximal `u64` borrow limits. -/
def noLimit : Fin 3 → Nat := fun _ => 18446744073709551615

/-- Constant token array. -/
def cArr (x : Nat) : Fin 3 → Nat := fun _ => x

/-- Token array with value `x` at token zero and zero elsewhere. -/
def arr0 (x : Nat) : Fin 3 → Nat := fun i => if i = 0 then x else 0

/-- Group fixture: fresh indexes, given risk parameters and aggregates. -/
def mkGroup (maint init_r : Nat) (td tb : Fin 3 → Nat) : MangoGroup where
  indexes := fun _ => onesIdx
  total_deposits := td
  total_borrows := tb
  maint_coll_ratio := maint
  init_coll_ratio := init_r
  borrow_limits := noLimit

/-- Genesis group of the solvency trace: `init_coll_ratio` zero (the ratio
gate then never binds), genesis clock zero. -/
def c1_g0 : MangoGroup := init_mango_group (fromU64 1) 0 noLimit 0

/-- Fresh margin account of the solvency trace. -/
def c1_a0 : MarginAccount := init_margin_account 7

/-- The solvency trace: deposit one native unit of token zero and borrow
`2^32` units at time zero, then deposit one more unit at time `2^60` (the
deposit refreshes the indexes first, accruing `2^60` seconds of interest at
utilization `2^32 / (2^32 + 1)`). -/
def c1_trace : Option (MangoGroup × MarginAccount) := do
  let (g, a) ← deposit c1_g0 c1_a0 0 1 0
  let (g, a) ← borrow g a pricesOne ooEmpty 0 4294967296 0
  deposit g a 0 1 1152921504606846976

/-- Healthy-account fixture for the liquidation gate. -/
def c4_g : MangoGroup := mkGroup (fromU64 1) (fromU64 1) (cArr (fromU64 100)) (cArr 0)

/-- Margin account with deposits and no debt. -/
def c4_a : MarginAccount := ⟨5, cArr (fromU64 100), cArr 0⟩

/-- Group fixture for borrow / withdraw success. -/
def c5_g : MangoGroup := mkGroup (fromU64 1) (fromU64 1) (cArr (fromU64 100)) (cArr 0)

/-- Account fixture for borrow / withdraw success. -/
def c5_a : MarginAccount := ⟨5, cArr (fromU64 100), cArr 0⟩

/-- Group fixture for the reduce-only trades: `init_coll_ratio` two, the
account below it. -/
def c6_g : MangoGroup :=
  mkGroup (fromU64 1) (fromU64 2) (cArr (fromU64 100)) (arr0 (fromU64 8))

/-- Account below `init_coll_ratio` of `c6_g` (ratio `10/8`). -/
def c6_a : MarginAccount := ⟨5, arr0 (fromU64 10), arr0 (fromU64 8)⟩

/-- Group fixture for settle-borrow. -/
def c7_g : MangoGroup :=
  mkGroup (fromU64 1) (fromU64 1) (cArr (fromU64 100)) (arr0 (fromU64 4))

/-- Account with a settleable borrow. -/
def c7_a : MarginAccount := ⟨5, arr0 (fromU64 10), arr0 (fromU64 4)⟩

/-- Group fixture for the index-monotonicity run. -/
def c8_g : MangoGroup :=
  mkGroup (fromU64 1) (fromU64 1) (cArr (fromU64 100)) (arr0 (fromU64 8))

/-- Liquidatable-but-recoverable fixture: maintenance ratio two, the account
at ratio `10/8`, fully recoverable by settling its own matching deposits. -/
def c9_g : MangoGroup :=
  mkGroup (fromU64 2) (fromU64 1) (cArr (fromU64 100)) (arr0 (fromU64 8))

/-- Account of the early-stop liquidation fixture. -/
def c9_a : MarginAccount := ⟨5, arr0 (fromU64 10), arr0 (fromU64 8)⟩

/-- Group fixture for socialize-loss. -/
def c3_g : MangoGroup :=
  mkGroup (fromU64 1) (fromU64 1) (cArr (fromU64 100)) (arr0 (fromU64 8))

/-- Account being socialized against. -/
def c3_a : MarginAccount := ⟨5, cArr 0, arr0 (fromU64 8)⟩

/-- Group whose token-zero deposit index is zero (as loss socialization can
leave it): settle-borrow divides by that index and aborts. -/
def c10_g : MangoGroup where
  indexes := fun i => if i = 0 then ⟨0, fromU64 1, 0⟩ else onesIdx
  total_deposits := cArr (fromU64 100)
  total_borrows := cArr (fromU64 8)
  maint_coll_ratio := fromU64 1
  init_coll_ratio := fromU64 1
  borrow_limits := noLimit

/-- Account whose shares are covered by the aggregates of `c10_g`. -/
def c10_a : MarginAccount := ⟨5, cArr (fromU64 10), cArr (fromU64 8)⟩

/-- Result of a sample borrow against `c5_g`. -/
def c5_borrow_res : Option (MangoGroup × MarginAccount) :=
  borrow c5_g c5_a pricesOne ooEmpty 0 10 0

/-- Result of a sample withdrawal against `c5_g`. -/
def c5_withdraw_res : Option (MangoGroup × MarginAccount) :=
  withdraw c5_g c5_a pricesOne ooEmpty 0 5 0

/-- Group after the sample borrow. -/
def c5_gB : MangoGroup := (c5_borrow_res.getD (c5_g, c5_a)).1

/-- Account after the sample borrow. -/
def c5_aB : MarginAccount := (c5_borrow_res.getD (c5_g, c5_a)).2

/-- Group after the sample withdrawal. -/
def c5_gW : MangoGroup := (c5_withdraw_res.getD (c5_g, c5_a)).1

/-- Account after the sample withdrawal. -/
def c5_aW : MarginAccount := (c5_withdraw_res.getD (c5_g, c5_a)).2

/-- Collateral ratio after the sample borrow. -/
def c5_rB : Nat := (get_collateral_ratio c5_gB c5_aB pricesOne ooEmpty).getD 0

/-- Collateral ratio after the sample withdrawal. -/
def c5_rW : Nat := (get_collateral_ratio c5_gW c5_aW pricesOne ooEmpty).getD 0

/-- Native deposit reading of the sample withdrawal. -/
def c5_nd : Nat := (fmul (c5_a.deposits 0) ((c5_g.indexes 0).deposit)).getD 0

/-- Result of the sample reduce-only order placement. -/
def c6_po_res : Option (MangoGroup × MarginAccount) :=
  place_order c6_g c6_a pricesOne ooEmpty 0 Side.ask 3 0

/-- Result of the sample reduce-only place-and-settle. -/
def c6_ps_res : Option (MangoGroup × MarginAccount) :=
  place_and_settle c6_g c6_a pricesOne ooEmpty 0 Side.ask 20 50 20 50 0

/-- Group after the sample order placement. -/
def c6_gP : MangoGroup := (c6_po_res.getD (c6_g, c6_a)).1

/-- Account after the sample order placement. -/
def c6_aP : MarginAccount := (c6_po_res.getD (c6_g, c6_a)).2

/-- Group after the sample place-and-settle. -/
def c6_gS : MangoGroup := (c6_ps_res.getD (c6_g, c6_a)).1

/-- Account after the sample place-and-settle. -/
def c6_aS : MarginAccount := (c6_ps_res.getD (c6_g, c6_a)).2

/-- Entry collateral ratio of the reduce-only fixture. -/
def c6_r0 : Nat := (get_collateral_ratio c6_g c6_a pricesOne ooEmpty).getD 0

/-- Result of the sample settle-borrow. -/
def c7_res : Option (MangoGroup × MarginAccount) :=
  settle_borrow_unchecked c7_g c7_a 0 100

/-- Group after the sample settle-borrow. -/
def c7_gp : MangoGroup := (c7_res.getD (c7_g, c7_a)).1

/-- Account after the sample settle-borrow. -/
def c7_ap : MarginAccount := (c7_res.getD (c7_g, c7_a)).2

/-- Result of the sample loss socialization. -/
def c3_res : Option (MangoGroup × MarginAccount) :=
  socialize_loss c3_g c3_a 0 (fromU64 3)

/-- Group after the sample loss socialization. -/
def c3_gp : MangoGroup := (c3_res.getD (c3_g, c3_a)).1

/-- Account after the sample loss socialization. -/
def c3_ap : MarginAccount := (c3_res.getD (c3_g, c3_a)).2

/-- Reduction value of the sample insolvency. -/
def c2_rv : Nat := (reduction_val (fromU64 100) (fromU64 50)).getD 0

/-- Token reduction of the sample insolvency. -/
def c2_tr : Nat := (token_reduce 5 (fromU64 100) c2_rv).getD 0

/-- Group after two sample index refreshes. -/
def c8_gp : MangoGroup := (apply_updates c8_g [5, 10]).getD c8_g

/-- Result of the settle pass on the early-stop fixture. -/
def c9_sp : Option (MangoGroup × MarginAccount) :=
  liquidate_settle_pass c9_g c9_a

/-- Group after the settle pass of the early-stop fixture. -/
def c9_g2 : MangoGroup := (c9_sp.getD (c9_g, c9_a)).1

/-- Account after the settle pass of the early-stop fixture. -/
def c9_a2 : MarginAccount := (c9_sp.getD (c9_g, c9_a)).2

/-- Entry ratio of the early-stop fixture. -/
def c9_r1 : Nat := (get_collateral_ratio c9_g c9_a pricesOne ooEmpty).getD 0

/-- Post-settle ratio of the early-stop fixture. -/
def c9_r2 : Nat := (get_collateral_ratio c9_g2 c9_a2 pricesOne ooEmpty).getD 0
/-- Strict upper bound of truncating division. -/
theorem lt_div_succ_mul (a b : Nat) (hb : 0 < b) : a < (a / b + 1) * b := by
  have h1 := Nat.div_add_mod a b
  have h2 := Nat.mod_lt a hb
  calc a = b * (a / b) + a % b := h1.symm
    _ < b * (a / b) + b := by omega
    _ = (a / b + 1) * b := by ring

/-- A successful range check returns its input. -/
theorem fchk_some {x y : Nat} (h : fchk x = some y) : y = x := by
  unfold fchk at h; split at h <;> simp_all

/-- Value of a successful fixed-point multiplication. -/
theorem fmul_some {a b c : Nat} (h : fmul a b = some c) : c = a * b / W :=
  fchk_some h

/-- Value of a successful fixed-point division. -/
theorem fdiv_some {a b c : Nat} (h : fdiv a b = some c) :
    0 < b ∧ c = a * W / b := by
  unfold fdiv at h; split at h
  · simp_all
  · unfold fchk at h; split at h <;> simp_all
    exact Nat.pos_of_ne_zero (by assumption)

/-- Value of a successful fixed-point addition. -/
theorem fadd_some {a b c : Nat} (h : fadd a b = some c) : c = a + b := by
  unfold fadd fchk at h; split at h <;> simp_all

/-- Value of a successful fixed-point subtraction. -/
theorem fsub_some {a b c : Nat} (h : fsub a b = some c) :
    b ≤ a ∧ c = a - b := by
  unfold fsub at h; split at h <;> simp_all

/-- What a successful `checked_sub_deposit` did. -/
theorem checked_sub_deposit_inversion {g : MangoGroup} {a : MarginAccount}
    {i : Fin 3} {v : Nat} {g1 : MangoGroup} {a1 : MarginAccount}
    (h : checked_sub_deposit g a i v = some (g1, a1)) :
    v ≤ a.deposits i ∧ v ≤ g.total_deposits i ∧
    g1 = { g with total_deposits :=
      Function.update g.total_deposits i (g.total_deposits i - v) } ∧
    a1 = { a with deposits :=
      Function.update a.deposits i (a.deposits i - v) } := by
  simp only [checked_sub_deposit, bind, Option.bind_eq_some, Option.pure_def,
    Option.some_inj] at h
  obtain ⟨ad, had, gd, hgd, h⟩ := h
  obtain ⟨h1, rfl⟩ := fsub_some had
  obtain ⟨h2, rfl⟩ := fsub_some hgd
  simp only [Prod.mk.injEq] at h
  obtain ⟨rfl, rfl⟩ := h
  exact ⟨h1, h2, rfl, rfl⟩

/-- What a successful `checked_sub_borrow` did. -/
theorem checked_sub_borrow_inversion {g : MangoGroup} {a : MarginAccount}
    {i : Fin 3} {v : Nat} {g1 : MangoGroup} {a1 : MarginAccount}
    (h : checked_sub_borrow g a i v = some (g1, a1)) :
    v ≤ a.borrows i ∧ v ≤ g.total_borrows i ∧
    g1 = { g with total_borrows :=
      Function.update g.total_borrows i (g.total_borrows i - v) } ∧
    a1 = { a with borrows :=
      Function.update a.borrows i (a.borrows i - v) } := by
  simp only [checked_sub_borrow, bind, Option.bind_eq_some, Option.pure_def,
    Option.some_inj] at h
  obtain ⟨ab, hab, gb, hgb, h⟩ := h
  obtain ⟨h1, rfl⟩ := fsub_some hab
  obtain ⟨h2, rfl⟩ := fsub_some hgb
  simp only [Prod.mk.injEq] at h
  obtain ⟨rfl, rfl⟩ := h
  exact ⟨h1, h2, rfl, rfl⟩

/-- What a successful `checked_add_deposit` did. -/
theorem checked_add_deposit_inversion {g : MangoGroup} {a : MarginAccount}
    {i : Fin 3} {v : Nat} {g1 : MangoGroup} {a1 : MarginAccount}
    (h : checked_add_deposit g a i v = some (g1, a1)) :
    g1 = { g with total_deposits :=
      Function.update g.total_deposits i (g.total_deposits i + v) } ∧
    a1 = { a with deposits :=
      Function.update a.deposits i (a.deposits i + v) } := by
  simp only [checked_add_deposit, bind, Option.bind_eq_some, Option.pure_def,
    Option.some_inj] at h
  obtain ⟨ad, had, gd, hgd, h⟩ := h
  rw [fadd_some had, fadd_some hgd] at h
  simp only [Prod.mk.injEq] at h
  obtain ⟨rfl, rfl⟩ := h
  exact ⟨rfl, rfl⟩

/-- What a successful `checked_add_borrow` did. -/
theorem checked_add_borrow_inversion {g : MangoGroup} {a : MarginAccount}
    {i : Fin 3} {v : Nat} {g1 : MangoGroup} {a1 : MarginAccount}
    (h : checked_add_borrow g a i v = some (g1, a1)) :
    g1 = { g with total_borrows :=
      Function.update g.total_borrows i (g.total_borrows i + v) } ∧
    a1 = { a with borrows :=
      Function.update a.borrows i (a.borrows i + v) } := by
  simp only [checked_add_borrow, bind, Option.bind_eq_some, Option.pure_def,
    Option.some_inj] at h
  obtain ⟨ab, hab, gb, hgb, h⟩ := h
  rw [fadd_some hab, fadd_some hgb] at h
  simp only [Prod.mk.injEq] at h
  obtain ⟨rfl, rfl⟩ := h
  exact ⟨rfl, rfl⟩

/-- Adding deposit shares leaves borrow shares alone. -/
theorem checked_add_deposit_borrows {g : MangoGroup} {a : MarginAccount}
    {i : Fin 3} {v : Nat} {g1 : MangoGroup} {a1 : MarginAccount}
    (h : checked_add_deposit g a i v = some (g1, a1)) :
    a1.borrows = a.borrows := by
  obtain ⟨_, rfl⟩ := checked_add_deposit_inversion h
  rfl

/-- Covered subtractions of deposit shares succeed. -/
theorem checked_sub_deposit_exists {g : MangoGroup} {a : MarginAccount}
    {i : Fin 3} {v : Nat} (h1 : v ≤ a.deposits i)
    (h2 : v ≤ g.total_deposits i) :
    ∃ s, checked_sub_deposit g a i v = some s := by
  unfold checked_sub_deposit
  rw [show fsub (a.deposits i) v = some (a.deposits i - v) from by
    simp [fsub, h1]]
  rw [show fsub (g.total_deposits i) v = some (g.total_deposits i - v) from by
    simp [fsub, h2]]
  exact ⟨_, rfl⟩

/-- Covered subtractions of borrow shares succeed. -/
theorem checked_sub_borrow_exists {g : MangoGroup} {a : MarginAccount}
    {i : Fin 3} {v : Nat} (h1 : v ≤ a.borrows i)
    (h2 : v ≤ g.total_borrows i) :
    ∃ s, checked_sub_borrow g a i v = some s := by
  unfold checked_sub_borrow
  rw [show fsub (a.borrows i) v = some (a.borrows i - v) from by
    simp [fsub, h1]]
  rw [show fsub (g.total_borrows i) v = some (g.total_borrows i - v) from by
    simp [fsub, h2]]
  exact ⟨_, rfl⟩

/-- The clamped settle amount, reconverted to shares by truncating division, never exceeds the shares the native amount was derived from. -/
theorem settle_share_le {qn b idx : Nat} (hbi : 0 < idx)
    (hq : qn ≤ b * idx / W / W) : fromU64 qn * W / idx ≤ b := by
  have h1 : qn * W * W ≤ b * idx := by
    calc qn * W * W = qn * (W * W) := by ring
      _ ≤ b * idx / W / W * (W * W) := Nat.mul_le_mul_right _ hq
      _ = b * idx / (W * W) * (W * W) := by rw [Nat.div_div_eq_div_mul]
      _ ≤ b * idx := Nat.div_mul_le_self _ _
  calc fromU64 qn * W / idx = qn * W * W / idx := by rw [fromU64]
    _ ≤ b * idx / idx := Nat.div_le_div_right h1
    _ = b := Nat.mul_div_cancel b hbi

/-- Settling borrows never raises borrow shares and never touches the owner. -/
theorem settle_borrow_unchecked_frame {g : MangoGroup} {a : MarginAccount}
    {i : Fin 3} {q : Nat} {g' : MangoGroup} {a' : MarginAccount}
    (h : settle_borrow_unchecked g a i q = some (g', a')) :
    a'.owner = a.owner ∧ ∀ j, a'.borrows j ≤ a.borrows j := by
  simp only [settle_borrow_unchecked, bind, Option.bind_eq_some,
    Option.pure_def, Option.some_inj] at h
  obtain ⟨nb, hnb, nd, hnd, bs, hbs, ds, hds, ⟨g1, a1⟩, h1, h2⟩ := h
  obtain ⟨_, _, rfl, rfl⟩ := checked_sub_deposit_inversion h1
  obtain ⟨_, _, rfl, rfl⟩ := checked_sub_borrow_inversion h2
  refine ⟨rfl, fun j => ?_⟩
  by_cases hj : j = i
  · subst hj; simp [Function.update_same]
  · simp [Function.update_noteq hj]

/-- Fully settling borrows never raises borrow shares and never touches the owner. -/
theorem settle_borrow_full_frame {g : MangoGroup} {a : MarginAccount}
    {i : Fin 3} {g' : MangoGroup} {a' : MarginAccount}
    (h : settle_borrow_full_unchecked g a i = some (g', a')) :
    a'.owner = a.owner ∧ ∀ j, a'.borrows j ≤ a.borrows j := by
  simp only [settle_borrow_full_unchecked, bind, Option.bind_eq_some,
    Option.pure_def, Option.some_inj] at h
  obtain ⟨nb, hnb, nd, hnd, bs, hbs, ds, hds, ⟨g1, a1⟩, h1, h2⟩ := h
  obtain ⟨_, _, rfl, rfl⟩ := checked_sub_deposit_inversion h1
  obtain ⟨_, _, rfl, rfl⟩ := checked_sub_borrow_inversion h2
  refine ⟨rfl, fun j => ?_⟩
  by_cases hj : j = i
  · subst hj; simp [Function.update_same]
  · simp [Function.update_noteq hj]

/-- The settle pass of `liquidate` keeps the account owner. -/
theorem liquidate_settle_pass_owner {g : MangoGroup} {a : MarginAccount}
    {g2 : MangoGroup} {a2 : MarginAccount}
    (h : liquidate_settle_pass g a = some (g2, a2)) : a2.owner = a.owner := by
  simp only [liquidate_settle_pass, bind, Option.bind_eq_some] at h
  obtain ⟨nb0, _, ⟨gx, ax⟩, hx, nb1, _, ⟨gy, ay⟩, hy, nb2, _, hz⟩ := h
  rw [(settle_borrow_unchecked_frame hz).1,
    (settle_borrow_unchecked_frame hy).1,
    (settle_borrow_unchecked_frame hx).1]

/-- A successful `borrow` passed the `init_coll_ratio` gate and the pool solvency check on its final state. -/
theorem borrow_inversion {g : MangoGroup} {a : MarginAccount}
    {prices : Fin 3 → Nat} {oo : OpenOrders} {i : Fin 3} {q ts : Nat}
    {gB : MangoGroup} {aB : MarginAccount}
    (h : borrow g a prices oo i q ts = some (gB, aB)) :
    ∃ r, get_collateral_ratio gB aB prices oo = some r ∧
      gB.init_coll_ratio ≤ r ∧
      has_valid_deposits_borrows gB i = some true := by
  simp only [borrow, bind, Option.bind_eq_some, Option.pure_def,
    Option.some_inj] at h
  obtain ⟨gU, hU, b, hb, d, hd, ⟨g1, a1⟩, h1, ⟨g2, a2⟩, h2, r0, hr0, h⟩ := h
  by_cases hinit : g2.init_coll_ratio ≤ r0
  · rw [if_pos hinit] at h
    simp only [bind, Option.bind_eq_some, Option.pure_def, Option.some_inj] at h
    obtain ⟨ok, hok, h⟩ := h
    by_cases hokb : ok = true
    · rw [if_pos hokb] at h
      simp only [bind, Option.bind_eq_some, Option.pure_def,
        Option.some_inj] at h
      obtain ⟨nb, hnb, h⟩ := h
      by_cases hlim : nb ≤ g2.borrow_limits i
      · rw [if_pos hlim] at h
        simp only [Option.some_inj, Prod.mk.injEq] at h
        obtain ⟨rfl, rfl⟩ := h
        exact ⟨r0, hr0, hinit, hokb ▸ hok⟩
      · rw [if_neg hlim] at h; cases h
    · rw [if_neg hokb] at h; cases h
  · rw [if_neg hinit] at h; cases h

/-- A successful `withdraw` had the native deposit to cover the quantity and passed the `init_coll_ratio` gate and the pool solvency check on its final state. -/
theorem withdraw_inversion {g : MangoGroup} {a : MarginAccount}
    {prices : Fin 3 → Nat} {oo : OpenOrders} {i : Fin 3} {q ts : Nat}
    {gW : MangoGroup} {aW : MarginAccount}
    (h : withdraw g a prices oo i q ts = some (gW, aW)) :
    (∃ gU nd, update_indexes g ts = some gU ∧
      fmul (a.deposits i) ((gU.indexes i).deposit) = some nd ∧
      q ≤ toU64 nd) ∧
    ∃ r, get_collateral_ratio gW aW prices oo = some r ∧
      gW.init_coll_ratio ≤ r ∧
      has_valid_deposits_borrows gW i = some true := by
  simp only [withdraw, bind, Option.bind_eq_some, Option.pure_def,
    Option.some_inj] at h
  obtain ⟨gU, hU, nd, hnd, h⟩ := h
  by_cases hav : q ≤ toU64 nd
  · rw [if_pos hav] at h
    simp only [bind, Option.bind_eq_some, Option.pure_def, Option.some_inj] at h
    obtain ⟨wd, hwd, ⟨g1, a1⟩, h1, r0, hr0, h⟩ := h
    by_cases hinit : g1.init_coll_ratio ≤ r0
    · rw [if_pos hinit] at h
      simp only [bind, Option.bind_eq_some, Option.pure_def,
        Option.some_inj] at h
      obtain ⟨ok, hok, h⟩ := h
      by_cases hokb : ok = true
      · rw [if_pos hokb] at h
        simp only [Option.some_inj, Prod.mk.injEq] at h
        obtain ⟨rfl, rfl⟩ := h
        exact ⟨⟨gU, nd, hU, hnd, hav⟩, r0, hr0, hinit, hokb ▸ hok⟩
      · rw [if_neg hokb] at h; cases h
    · rw [if_neg hinit] at h; cases h
  · rw [if_neg hav] at h; cases h

/-- A successful reduce-only `place_order` leaves every borrow balance unchanged. -/
theorem place_order_reduce_only {g gU gP : MangoGroup} {a aP : MarginAccount}
    {prices : Fin 3 → Nat} {oo : OpenOrders} {mi : Fin 2} {side : Side}
    {spent ts r0 : Nat}
    (hU : update_indexes g ts = some gU)
    (hr : get_collateral_ratio gU a prices oo = some r0)
    (hlt : r0 < gU.init_coll_ratio)
    (h : place_order g a prices oo mi side spent ts = some (gP, aP)) :
    ∀ j, aP.borrows j = a.borrows j := by
  simp only [place_order, bind, Option.bind_eq_some, Option.pure_def,
    Option.some_inj] at h
  obtain ⟨gU1, hU1, r01, hr01, nd, hnd, h⟩ := h
  rw [hU] at hU1; cases hU1
  rw [hr] at hr01; cases hr01
  by_cases hsp : spent ≤ nd
  · rw [if_pos hsp] at h
    simp only [bind, Option.bind_eq_some, Option.pure_def,
      Option.some_inj] at h
    obtain ⟨sd, hsd, ⟨g1, a1⟩, hcsd, r1, hr1, h⟩ := h
    obtain ⟨_, _, rfl, rfl⟩ := checked_sub_deposit_inversion hcsd
    by_cases hcond : r0 < gU.init_coll_ratio ∨
        gU.init_coll_ratio ≤ r1
    · rw [if_pos hcond] at h
      simp only [bind, Option.bind_eq_some, Option.pure_def,
        Option.some_inj] at h
      obtain ⟨ok, hok, h⟩ := h
      by_cases hokb : ok = true
      · rw [if_pos hokb] at h
        simp only [Option.some_inj, Prod.mk.injEq] at h
        obtain ⟨rfl, rfl⟩ := h
        intro j; rfl
      · rw [if_neg hokb] at h; cases h
    · rw [if_neg hcond] at h; cases h
  · rw [if_neg hsp] at h
    simp only [bind, Option.bind_eq_some, Option.pure_def,
      Option.some_inj] at h
    obtain ⟨⟨gx, ax⟩, hx, h⟩ := h
    rw [if_pos hlt] at h
    simp only [Option.none_bind] at h
    cases h

/-- A successful reduce-only settlement core never raises a borrow balance. -/
theorem place_and_settle_core_reduce_only {g gS : MangoGroup}
    {a aS : MarginAccount} {prices : Fin 3 → Nat} {oo : OpenOrders}
    {ro : Prop} [Decidable ro] {itk otk : Fin 3} {pi po qi qo : Nat}
    (hro : ro)
    (h : place_and_settle_core g a prices oo ro itk otk pi po qi qo =
      some (gS, aS)) :
    ∀ j, aS.borrows j ≤ a.borrows j := by
  simp only [place_and_settle_core, bind, Option.bind_eq_some,
    Option.pure_def, Option.some_inj] at h
  by_cases h1 : qo < po
  · rw [if_pos h1] at h
    simp only [bind, Option.bind_eq_some] at h
    obtain ⟨nd, hnd, h⟩ := h
    by_cases h2 : nd < po - qo
    · rw [if_pos h2] at h
      simp only [bind, Option.bind_eq_some] at h
      obtain ⟨⟨gx, ax⟩, hx, h⟩ := h
      rw [if_pos hro] at h
      simp only [Option.none_bind] at h
      cases h
    · rw [if_neg h2] at h
      simp only [bind, Option.bind_eq_some] at h
      obtain ⟨ms, hms, ⟨g1, a1⟩, hsub, h⟩ := h
      obtain ⟨_, _, rfl, rfl⟩ := checked_sub_deposit_inversion hsub
      by_cases h3 : qi < pi
      · rw [if_pos h3] at h; cases h
      · rw [if_neg h3] at h
        simp only [bind, Option.bind_eq_some, Option.pure_def,
          Option.some_inj] at h
        obtain ⟨ti, hti, ⟨g2, a2⟩, hadd, ⟨g3, a3⟩, hsf1, ⟨g4, a4⟩, hsf2,
          r1, hr1, h⟩ := h
        rw [if_pos (Or.inl hro)] at h
        simp only [bind, Option.bind_eq_some, Option.pure_def,
          Option.some_inj] at h
        obtain ⟨ok, hok, h⟩ := h
        by_cases hokb : ok = true
        · rw [if_pos hokb] at h
          simp only [Option.some_inj, Prod.mk.injEq] at h
          obtain ⟨rfl, rfl⟩ := h
          intro j
          calc a4.borrows j ≤ a3.borrows j := (settle_borrow_full_frame hsf2).2 j
            _ ≤ a2.borrows j := (settle_borrow_full_frame hsf1).2 j
            _ = a.borrows j := by rw [checked_add_deposit_borrows hadd]
        · rw [if_neg hokb] at h; cases h
  · rw [if_neg h1] at h
    simp only [bind, Option.bind_eq_some] at h
    obtain ⟨v, hv, ⟨g1, a1⟩, hadd0, h⟩ := h
    by_cases h3 : qi < pi
    · rw [if_pos h3] at h; cases h
    · rw [if_neg h3] at h
      simp only [bind, Option.bind_eq_some, Option.pure_def,
        Option.some_inj] at h
      obtain ⟨ti, hti, ⟨g2, a2⟩, hadd, ⟨g3, a3⟩, hsf1, ⟨g4, a4⟩, hsf2,
        r1, hr1, h⟩ := h
      rw [if_pos (Or.inl hro)] at h
      simp only [bind, Option.bind_eq_some, Option.pure_def,
        Option.some_inj] at h
      obtain ⟨ok, hok, h⟩ := h
      by_cases hokb : ok = true
      · rw [if_pos hokb] at h
        simp only [Option.some_inj, Prod.mk.injEq] at h
        obtain ⟨rfl, rfl⟩ := h
        intro j
        calc a4.borrows j ≤ a3.borrows j := (settle_borrow_full_frame hsf2).2 j
          _ ≤ a2.borrows j := (settle_borrow_full_frame hsf1).2 j
          _ = a1.borrows j := by rw [checked_add_deposit_borrows hadd]
          _ = a.borrows j := by rw [checked_add_deposit_borrows hadd0]
      · rw [if_neg hokb] at h; cases h

/-- A successful reduce-only `place_and_settle` never raises a borrow balance. -/
theorem place_and_settle_reduce_only {g gU gS : MangoGroup}
    {a aS : MarginAccount} {prices : Fin 3 → Nat} {oo : OpenOrders}
    {mi : Fin 2} {side : Side} {pb pq qb qq ts r0 : Nat}
    (hU : update_indexes g ts = some gU)
    (hr : get_collateral_ratio gU a prices oo = some r0)
    (hlt : r0 < gU.init_coll_ratio)
    (h : place_and_settle g a prices oo mi side pb pq qb qq ts =
      some (gS, aS)) :
    ∀ j, aS.borrows j ≤ a.borrows j := by
  simp only [place_and_settle, bind, Option.bind_eq_some] at h
  obtain ⟨gU1, hU1, r01, hr01, h⟩ := h
  rw [hU] at hU1; cases hU1
  rw [hr] at hr01; cases hr01
  cases side
  · exact place_and_settle_core_reduce_only hlt h
  · exact place_and_settle_core_reduce_only hlt h

/-- Value of the aggregate native deposit reading. -/
theorem total_native_deposit_some {g : MangoGroup} {i : Fin 3} {tn : Nat}
    (htn : get_total_native_deposit g i = some tn) :
    tn = g.total_deposits i * (g.indexes i).deposit / W / W := by
  simp only [get_total_native_deposit, bind, Option.bind_eq_some,
    Option.pure_def, Option.some_inj] at htn
  obtain ⟨x, hx, htn⟩ := htn
  rw [fmul_some hx] at htn
  rw [← htn]
  rfl

/-- Rounding bounds of the deposit-index shrink step of `socialize_loss`: the aggregate native reduction is at most the requested value (scaled by the floor slack of the native total) and undershoots it by at most one unit per share plus one share. -/
theorem socialize_bounds (v tn td di : Nat) (htn : 0 < tn)
    (htd : tn * (W * W) ≤ td * di) :
    td * (v * W / (tn * W) * di / W) * (tn * W) ≤ td * di * v ∧
    v * W * W <
      td * (v * W / (tn * W) * di / W) * W + td * W + td * di := by
  have hW : 0 < W := by unfold W; positivity
  have hA : 0 < tn * W := Nat.mul_pos htn hW
  set pl := v * W / (tn * W) with hpl
  set dec := pl * di / W with hdec
  have hprod : 0 < td * di := lt_of_lt_of_le (by positivity) htd
  have hdi : 0 < di := Nat.pos_of_ne_zero fun h => by simp [h] at hprod
  have htd0 : 0 < td := Nat.pos_of_ne_zero fun h => by simp [h] at hprod
  constructor
  · -- upper bound
    have h1 : dec * W ≤ pl * di := Nat.div_mul_le_self _ _
    have h2 : pl * (tn * W) ≤ v * W := Nat.div_mul_le_self _ _
    have h3 : pl * tn ≤ v := by
      have : pl * tn * W ≤ v * W := by
        calc pl * tn * W = pl * (tn * W) := by ring
          _ ≤ v * W := h2
      exact Nat.le_of_mul_le_mul_right this hW
    calc td * dec * (tn * W) = td * (dec * W * tn) := by ring
      _ ≤ td * (pl * di * tn) := by
          exact Nat.mul_le_mul_left td (Nat.mul_le_mul_right tn h1)
      _ = td * (pl * tn * di) := by ring
      _ ≤ td * (v * di) := by
          exact Nat.mul_le_mul_left td (Nat.mul_le_mul_right di h3)
      _ = td * di * v := by ring
  · -- lower bound
    have h5 : v * W < (pl + 1) * (tn * W) := lt_div_succ_mul _ _ hA
    have h6 : pl * di < (dec + 1) * W := lt_div_succ_mul _ _ hW
    have h7 : v * W * di < tn * W * (dec * W + W + di) := by
      calc v * W * di < (pl + 1) * (tn * W) * di := by
            exact Nat.mul_lt_mul_of_lt_of_le h5 (le_refl di) hdi
        _ = (pl * di) * (tn * W) + tn * W * di := by ring
        _ ≤ ((dec + 1) * W) * (tn * W) + tn * W * di := by
            have := Nat.le_of_lt_succ (Nat.lt_succ_of_lt h6)
            exact Nat.add_le_add_right
              (Nat.mul_le_mul_right _ (Nat.le_of_lt h6)) _
        _ = tn * W * (dec * W + W + di) := by ring
    have h8 : v * W * di * td < tn * W * ((dec * W + W + di) * td) := by
      calc v * W * di * td < tn * W * (dec * W + W + di) * td := by
            exact Nat.mul_lt_mul_of_lt_of_le h7 (le_refl td) htd0
        _ = tn * W * ((dec * W + W + di) * td) := by ring
    have h9 : tn * W * (v * W * W) ≤ v * W * di * td := by
      calc tn * W * (v * W * W) = v * W * (tn * (W * W)) := by ring
        _ ≤ v * W * (td * di) := Nat.mul_le_mul_left _ htd
        _ = v * W * di * td := by ring
    have h10 : tn * W * (v * W * W) < tn * W * ((dec * W + W + di) * td) :=
      lt_of_le_of_lt h9 h8
    have h11 : v * W * W < (dec * W + W + di) * td :=
      Nat.lt_of_mul_lt_mul_left h10
    calc v * W * W < (dec * W + W + di) * td := h11
      _ = td * dec * W + td * W + td * di := by ring

/-- One token refresh step never lowers either index or `last_update`. -/
theorem update_token_mono {ts : Nat} {g : MangoGroup} {i0 : Fin 3}
    {g' : MangoGroup} (h : update_token ts g i0 = some g') :
    ∀ i, (g.indexes i).borrow ≤ (g'.indexes i).borrow ∧
      (g.indexes i).deposit ≤ (g'.indexes i).deposit ∧
      (g.indexes i).last_update ≤ (g'.indexes i).last_update := by
  simp only [update_token, bind, Option.bind_eq_some, Option.pure_def,
    Option.some_inj] at h
  obtain ⟨ir, hir, h⟩ := h
  by_cases hskip : (g.indexes i0).last_update = ts ∨ g.total_deposits i0 = 0
  · rw [if_pos hskip] at h
    cases h
    exact fun i => ⟨le_refl _, le_refl _, le_refl _⟩
  · rw [if_neg hskip] at h
    simp only [bind, Option.bind_eq_some, Option.pure_def,
      Option.some_inj] at h
    obtain ⟨nd, hnd, nb, hnb, h⟩ := h
    by_cases hc : nb ≤ nd
    · rw [if_pos hc] at h
      simp only [bind, Option.bind_eq_some, Option.pure_def,
        Option.some_inj] at h
      obtain ⟨util, hutil, h⟩ := h
      by_cases hts : (g.indexes i0).last_update ≤ ts
      · rw [if_pos hts] at h
        simp only [bind, Option.bind_eq_some, Option.pure_def,
          Option.some_inj] at h
        obtain ⟨bint, hbint, dint, hdint, x, hx, b, hb, y, hy, d, hd, h⟩ := h
        subst h
        intro i
        by_cases hi : i = i0
        · subst hi
          simp only [Function.update_same]
          rw [fadd_some hb, fadd_some hd]
          exact ⟨Nat.le_add_left _ _, Nat.le_add_left _ _, hts⟩
        · simp only [Function.update_noteq hi]
          exact ⟨le_refl _, le_refl _, le_refl _⟩
      · rw [if_neg hts] at h; cases h
    · rw [if_neg hc] at h; cases h

/-- One `update_indexes` call never lowers either index or `last_update` of any token. -/
theorem update_indexes_mono {g : MangoGroup} {ts : Nat} {g' : MangoGroup}
    (h : update_indexes g ts = some g') :
    ∀ i, (g.indexes i).borrow ≤ (g'.indexes i).borrow ∧
      (g.indexes i).deposit ≤ (g'.indexes i).deposit ∧
      (g.indexes i).last_update ≤ (g'.indexes i).last_update := by
  simp only [update_indexes, bind, Option.bind_eq_some] at h
  obtain ⟨g1, h1, g2, h2, h3⟩ := h
  intro i
  obtain ⟨a1, b1, c1⟩ := update_token_mono h1 i
  obtain ⟨a2, b2, c2⟩ := update_token_mono h2 i
  obtain ⟨a3, b3, c3⟩ := update_token_mono h3 i
  exact ⟨le_trans a1 (le_trans a2 a3), le_trans b1 (le_trans b2 b3),
    le_trans c1 (le_trans c2 c3)⟩

/-- Any successful sequence of index refreshes never lowers either index or `last_update` of any token. -/
theorem apply_updates_mono {g : MangoGroup} {l : List Nat} {g' : MangoGroup}
    (h : apply_updates g l = some g') :
    ∀ i, (g.indexes i).borrow ≤ (g'.indexes i).borrow ∧
      (g.indexes i).deposit ≤ (g'.indexes i).deposit ∧
      (g.indexes i).last_update ≤ (g'.indexes i).last_update := by
  induction l generalizing g with
  | nil =>
      simp only [apply_updates, List.foldlM_nil, Option.pure_def,
        Option.some_inj] at h
      subst h
      exact fun i => ⟨le_refl _, le_refl _, le_refl _⟩
  | cons t rest ih =>
      simp only [apply_updates, List.foldlM_cons, bind,
        Option.bind_eq_some] at h
      obtain ⟨g1, h1, h2⟩ := h
      intro i
      obtain ⟨a1, b1, c1⟩ := update_indexes_mono h1 i
      obtain ⟨a2, b2, c2⟩ := ih (g := g1) h2 i
      exact ⟨le_trans a1 a2, le_trans b1 b2, le_trans c1 c2⟩
/-- C1, counterexample.  The pool-solvency claim fails as stated: the trace
`c1_trace` (deposit one unit of token zero and borrow `2^32` units at time
zero, then deposit one more unit at time `2^60`) completes successfully, yet
after its last operation the group violates
`total_deposits[0] * deposit_index[0] ≥ total_borrows[0] * borrow_index[0]`:
the deposit-interest flooring in `update_indexes` grows the borrow side
faster than the deposit side at utilization just below one. -/
theorem c1_solvency_counterexample :
    c1_trace.isSome = true ∧
    (c1_trace.getD (c1_g0, c1_a0)).1.total_deposits 0 *
      ((c1_trace.getD (c1_g0, c1_a0)).1.indexes 0).deposit <
    (c1_trace.getD (c1_g0, c1_a0)).1.total_borrows 0 *
      ((c1_trace.getD (c1_g0, c1_a0)).1.indexes 0).borrow :=
  ⟨rfl, by decide⟩

/-- C1, amended.  After every successful Withdraw and every successful
Borrow, the affected asset satisfies the native-unit pool solvency check of
the code, `has_valid_deposits_borrows` (floored total native deposits at
least the rounded-up total native borrows), on the final state. -/
theorem c1_checked_solvency (g g2 gB gW : MangoGroup)
    (a a2 aB aW : MarginAccount) (prices prices2 : Fin 3 → Nat)
    (oo oo2 : OpenOrders) (i i2 : Fin 3) (q q2 ts ts2 : Nat)
    (hb : borrow g a prices oo i q ts = some (gB, aB))
    (hw : withdraw g2 a2 prices2 oo2 i2 q2 ts2 = some (gW, aW)) :
    has_valid_deposits_borrows gB i = some true ∧
    has_valid_deposits_borrows gW i2 = some true :=
  ⟨(borrow_inversion hb).choose_spec.2.2,
   (withdraw_inversion hw).2.choose_spec.2.2⟩

/-- C1 witness: a concrete successful borrow and withdrawal whose final
states pass the native solvency check of token zero. -/
theorem c1_checked_solvency_witness :
    borrow c5_g c5_a pricesOne ooEmpty 0 10 0 = some (c5_gB, c5_aB) ∧
    withdraw c5_g c5_a pricesOne ooEmpty 0 5 0 = some (c5_gW, c5_aW) ∧
    has_valid_deposits_borrows c5_gB 0 = some true ∧
    has_valid_deposits_borrows c5_gW 0 = some true := by
  have h := c1_checked_solvency c5_g c5_g c5_gB c5_gW c5_a c5_a c5_aB c5_aW
    pricesOne pricesOne ooEmpty ooEmpty 0 0 10 5 0 0 rfl rfl
  exact ⟨rfl, rfl, h.1, h.2⟩

/-- C2.  In the insolvency branch of Liquidate the engine computes
`reduction_val = liabs_val - assets_val / 1.01` and, for each asset, removes
`token_reduce = (liabs[i] / liabs_val) * reduction_val` native units via
loss socialization.  The theorem states the reduction-value formula and the
proportionality: `token_reduce * liabs_val` equals the asset's native
liability share of the reduction value, `liabs[i] * reduction_val` (scaled
by the fixed-point factor), within one rounding step of each of the two
truncating divisions.  Multiplying both sides by the asset's price shows
the removed value is the asset's share of the total liabilities value,
price-weighted, of `reduction_val`. -/
theorem c2_socialization_proportional (liab_i lv av rv tr : Nat)
    (hrv : reduction_val lv av = some rv)
    (htr : token_reduce liab_i lv rv = some tr) :
    rv = lv - av * W / onePointOhOneRaw ∧
    tr * W * lv ≤ liab_i * (W * W) * rv ∧
    liab_i * (W * W) * rv < (tr + 1) * (W * lv) + lv * rv := by
  have hW : 0 < W := by unfold W; positivity
  simp only [reduction_val, bind, Option.bind_eq_some] at hrv
  obtain ⟨x, hx, hsub⟩ := hrv
  obtain ⟨hc, rfl⟩ := fdiv_some hx
  obtain ⟨hle, rfl⟩ := fsub_some hsub
  simp only [token_reduce, bind, Option.bind_eq_some] at htr
  obtain ⟨prop, hprop, hmul⟩ := htr
  obtain ⟨hlv, rfl⟩ := fdiv_some hprop
  have htr' := fmul_some hmul
  subst htr'
  refine ⟨rfl, ?_, ?_⟩
  · set rv := lv - av * W / onePointOhOneRaw with hrvdef
    set prop := fromU64 liab_i * W / lv with hpropdef
    calc prop * rv / W * W * lv ≤ prop * rv * lv :=
          Nat.mul_le_mul_right lv (Nat.div_mul_le_self _ _)
      _ = prop * lv * rv := by ring
      _ ≤ fromU64 liab_i * W * rv :=
          Nat.mul_le_mul_right rv (Nat.div_mul_le_self _ _)
      _ = liab_i * (W * W) * rv := by rw [fromU64]; ring
  · set rv := lv - av * W / onePointOhOneRaw with hrvdef
    set prop := fromU64 liab_i * W / lv with hpropdef
    set tr := prop * rv / W with htrdef
    rcases Nat.eq_zero_or_pos rv with hz | hpos
    · rw [hz]
      have : 0 < (tr + 1) * (W * lv) :=
        Nat.mul_pos (Nat.succ_pos tr) (Nat.mul_pos hW hlv)
      simpa using this
    · have h1 : liab_i * (W * W) < (prop + 1) * lv := by
        have := lt_div_succ_mul (fromU64 liab_i * W) lv hlv
        calc liab_i * (W * W) = fromU64 liab_i * W := by rw [fromU64]; ring
          _ < (fromU64 liab_i * W / lv + 1) * lv := this
          _ = (prop + 1) * lv := rfl
      have h2 : prop * rv < (tr + 1) * W := lt_div_succ_mul _ _ hW
      calc liab_i * (W * W) * rv < (prop + 1) * lv * rv :=
            Nat.mul_lt_mul_of_lt_of_le h1 (le_refl rv) hpos
        _ = prop * rv * lv + lv * rv := by ring
        _ ≤ (tr + 1) * W * lv + lv * rv :=
            Nat.add_le_add_right
              (Nat.mul_le_mul_right lv (Nat.le_of_lt h2)) _
        _ = (tr + 1) * (W * lv) + lv * rv := by ring

/-- C2 witness: the bounds at a concrete insolvent valuation. -/
theorem c2_socialization_proportional_witness :
    reduction_val (fromU64 100) (fromU64 50) = some c2_rv ∧
    token_reduce 5 (fromU64 100) c2_rv = some c2_tr ∧
    c2_rv = fromU64 100 - fromU64 50 * W / onePointOhOneRaw ∧
    c2_tr * W * fromU64 100 ≤ 5 * (W * W) * c2_rv := by
  have h := c2_socialization_proportional 5 (fromU64 100) (fromU64 50)
    c2_rv c2_tr rfl rfl
  exact ⟨rfl, rfl, h.1, h.2.1⟩

/-- C3.  After a successful `socialize_loss(asset, v)`: the liquidated
account's borrow shares drop by `v / borrow_index`, so its native borrow
drops by exactly `v` up to one borrow-index rounding step; deposit shares
are untouched while the deposit index shrinks, so the aggregate native
deposits (deposit shares times deposit index, the sum over all accounts)
drop by `v` up to fixed-point rounding: at most `v` scaled by the floor
slack of the native total, and undershooting by at most one raw unit per
share plus the per-share flooring. -/
theorem c3_socialize_loss_conservation (g : MangoGroup) (a : MarginAccount) (i : Fin 3)
    (v tn : Nat) (g' : MangoGroup) (a' : MarginAccount)
    (h : socialize_loss g a i v = some (g', a'))
    (htn : get_total_native_deposit g i = some tn) :
    a'.borrows i = a.borrows i - v * W / (g.indexes i).borrow ∧
    (a.borrows i - a'.borrows i) * (g.indexes i).borrow ≤ v * W ∧
    v * W < (a.borrows i - a'.borrows i) * (g.indexes i).borrow +
      (g.indexes i).borrow ∧
    g'.total_deposits i = g.total_deposits i ∧
    (g'.indexes i).deposit ≤ (g.indexes i).deposit ∧
    g.total_deposits i * ((g.indexes i).deposit - (g'.indexes i).deposit) *
      (tn * W) ≤ g.total_deposits i * (g.indexes i).deposit * v ∧
    v * W * W <
      g.total_deposits i * ((g.indexes i).deposit - (g'.indexes i).deposit) *
        W + g.total_deposits i * W +
        g.total_deposits i * (g.indexes i).deposit := by
  simp only [socialize_loss, bind, Option.bind_eq_some, Option.pure_def,
    Option.some_inj] at h
  obtain ⟨q, hq, ⟨g1, a1⟩, hsb, tn1, htn1, pl, hpl, dec, hdec, d, hd, h⟩ := h
  simp only [Prod.mk.injEq] at h
  obtain ⟨rfl, rfl⟩ := h
  obtain ⟨hbipos, rfl⟩ := fdiv_some hq
  obtain ⟨hqle, hqgle, hg1, ha1⟩ := checked_sub_borrow_inversion hsb
  subst hg1; subst ha1
  have htn1' : get_total_native_deposit g i = some tn1 := htn1
  rw [htn] at htn1'
  cases htn1'
  obtain ⟨hplpos, rfl⟩ := fdiv_some hpl
  have hdec' : fmul (v * W / fromU64 tn) ((g.indexes i).deposit) = some dec :=
    hdec
  have hdeceq := fmul_some hdec'
  obtain ⟨hdecle, rfl⟩ := fsub_some hd
  have htnpos : 0 < tn := by
    have hW : 0 < W := by unfold W; positivity
    rcases Nat.eq_zero_or_pos tn with hz | hp
    · subst hz; simp [fromU64] at hplpos
    · exact hp
  have htneq := total_native_deposit_some htn
  have htdle : tn * (W * W) ≤ g.total_deposits i * (g.indexes i).deposit := by
    rw [htneq, Nat.div_div_eq_div_mul]
    exact Nat.div_mul_le_self _ _
  have hbounds := socialize_bounds v tn (g.total_deposits i)
    ((g.indexes i).deposit) htnpos htdle
  have hdecexpr : dec = v * W / (tn * W) * (g.indexes i).deposit / W := by
    simpa [fromU64] using hdeceq
  have hb1 := hbounds.1
  have hb2 := hbounds.2
  rw [← hdecexpr] at hb1 hb2
  have hW : 0 < W := by unfold W; positivity
  have hdecle' : dec ≤ (g.indexes i).deposit := hdecle
  dsimp only
  simp only [Function.update_same]
  have hq1 : a.borrows i - (a.borrows i - v * W / (g.indexes i).borrow) =
      v * W / (g.indexes i).borrow := Nat.sub_sub_self hqle
  have hq2 : (g.indexes i).deposit - ((g.indexes i).deposit - dec) = dec :=
    Nat.sub_sub_self hdecle'
  rw [hq1, hq2]
  refine ⟨trivial, Nat.div_mul_le_self _ _, ?_, trivial, Nat.sub_le _ _,
    hb1, hb2⟩
  calc v * W < (v * W / (g.indexes i).borrow + 1) * (g.indexes i).borrow :=
        lt_div_succ_mul _ _ hbipos
    _ = v * W / (g.indexes i).borrow * (g.indexes i).borrow +
        (g.indexes i).borrow := by ring

/-- C3 witness: socializing three native units against a concrete pool. -/
theorem c3_socialize_loss_conservation_witness :
    socialize_loss c3_g c3_a 0 (fromU64 3) = some (c3_gp, c3_ap) ∧
    get_total_native_deposit c3_g 0 = some 100 ∧
    c3_ap.borrows 0 = c3_a.borrows 0 - fromU64 3 * W / (c3_g.indexes 0).borrow ∧
    c3_gp.total_deposits 0 = c3_g.total_deposits 0 := by
  have h := c3_socialize_loss_conservation c3_g c3_a 0 (fromU64 3) 100
    c3_gp c3_ap rfl rfl
  exact ⟨rfl, rfl, h.1, h.2.2.2.1⟩

/-- C4.  Liquidate aborts -- the whole invocation fails, so the host
commits no state change at all -- whenever the account's collateral ratio
at entry, computed after the index refresh, is at or above
`maint_coll_ratio`. -/
theorem c4_liquidation_gate (g gU : MangoGroup) (a : MarginAccount)
    (prices : Fin 3 → Nat) (oo : OpenOrders) (dq : Fin 3 → Nat)
    (liqor ts r : Nat)
    (hU : update_indexes g ts = some gU)
    (hr : get_collateral_ratio gU a prices oo = some r)
    (hge : gU.maint_coll_ratio ≤ r) :
    liquidate g a prices oo dq liqor ts = none := by
  simp only [liquidate, hU, hr, Option.some_bind, bind, Option.bind]
  rw [if_neg (not_lt.mpr hge)]

/-- C4 witness: a healthy account cannot be liquidated. -/
theorem c4_liquidation_gate_witness :
    update_indexes c4_g 0 = some c4_g ∧
    get_collateral_ratio c4_g c4_a pricesOne ooEmpty = some (FMAX - 1) ∧
    c4_g.maint_coll_ratio ≤ FMAX - 1 ∧
    liquidate c4_g c4_a pricesOne ooEmpty (cArr 0) 9 0 = none :=
  ⟨rfl, rfl, by decide,
   c4_liquidation_gate c4_g c4_g c4_a pricesOne ooEmpty (cArr 0) 9 0
     (FMAX - 1) rfl rfl (by decide)⟩

/-- C5.  Borrow and Withdraw never succeed with a final collateral ratio
(recomputed after the share changes) below `init_coll_ratio`, and Withdraw
additionally never succeeds when the account's native deposit in the
withdrawn asset, read after the index refresh, is below the requested
quantity. -/
theorem c5_ratio_gates (g g2 gB gW gU : MangoGroup)
    (a a2 aB aW : MarginAccount) (prices prices2 : Fin 3 → Nat)
    (oo oo2 : OpenOrders) (i i2 : Fin 3) (q q2 ts ts2 rB rW nd : Nat)
    (hb : borrow g a prices oo i q ts = some (gB, aB))
    (hrB : get_collateral_ratio gB aB prices oo = some rB)
    (hw : withdraw g2 a2 prices2 oo2 i2 q2 ts2 = some (gW, aW))
    (hrW : get_collateral_ratio gW aW prices2 oo2 = some rW)
    (hU : update_indexes g2 ts2 = some gU)
    (hnd : fmul (a2.deposits i2) ((gU.indexes i2).deposit) = some nd) :
    gB.init_coll_ratio ≤ rB ∧ gW.init_coll_ratio ≤ rW ∧ q2 ≤ toU64 nd := by
  obtain ⟨r, hr, hle, _⟩ := borrow_inversion hb
  rw [hrB] at hr; cases hr
  obtain ⟨⟨gU', nd', hU', hnd', hqle⟩, r', hr', hle', _⟩ :=
    withdraw_inversion hw
  rw [hU] at hU'; cases hU'
  rw [hnd] at hnd'; cases hnd'
  rw [hrW] at hr'; cases hr'
  exact ⟨hle, hle', hqle⟩

/-- C5 witness: a concrete borrow and withdrawal satisfying the gates. -/
theorem c5_ratio_gates_witness :
    borrow c5_g c5_a pricesOne ooEmpty 0 10 0 = some (c5_gB, c5_aB) ∧
    get_collateral_ratio c5_gB c5_aB pricesOne ooEmpty = some c5_rB ∧
    withdraw c5_g c5_a pricesOne ooEmpty 0 5 0 = some (c5_gW, c5_aW) ∧
    get_collateral_ratio c5_gW c5_aW pricesOne ooEmpty = some c5_rW ∧
    update_indexes c5_g 0 = some c5_g ∧
    fmul (c5_a.deposits 0) ((c5_g.indexes 0).deposit) = some c5_nd ∧
    (c5_gB.init_coll_ratio ≤ c5_rB ∧ c5_gW.init_coll_ratio ≤ c5_rW ∧
      5 ≤ toU64 c5_nd) :=
  ⟨rfl, rfl, rfl, rfl, rfl, rfl,
   c5_ratio_gates c5_g c5_g c5_gB c5_gW c5_g c5_a c5_a c5_aB c5_aW
     pricesOne pricesOne ooEmpty ooEmpty 0 0 10 5 0 0 c5_rB c5_rW c5_nd
     rfl rfl rfl rfl rfl rfl⟩

/-- C6.  When the account's collateral ratio before a trade is below
`init_coll_ratio` (reduce-only mode), a successful `place_order` leaves
every borrow balance of the account unchanged and a successful
`place_and_settle` never raises any borrow balance: in that mode every step
that would create a new borrow makes the whole operation fail. -/
theorem c6_reduce_only (g gU gP g2 gU2 gS : MangoGroup)
    (a aP a2 aS : MarginAccount) (prices prices2 : Fin 3 → Nat)
    (oo oo2 : OpenOrders) (mi mi2 : Fin 2) (side side2 : Side)
    (spent ts ts2 r0 r02 pb pq qb qq : Nat)
    (hU : update_indexes g ts = some gU)
    (hr : get_collateral_ratio gU a prices oo = some r0)
    (hlt : r0 < gU.init_coll_ratio)
    (h1 : place_order g a prices oo mi side spent ts = some (gP, aP))
    (hU2 : update_indexes g2 ts2 = some gU2)
    (hr2 : get_collateral_ratio gU2 a2 prices2 oo2 = some r02)
    (hlt2 : r02 < gU2.init_coll_ratio)
    (h2 : place_and_settle g2 a2 prices2 oo2 mi2 side2 pb pq qb qq ts2 =
      some (gS, aS)) :
    (∀ j, aP.borrows j = a.borrows j) ∧
    (∀ j, aS.borrows j ≤ a2.borrows j) :=
  ⟨place_order_reduce_only hU hr hlt h1,
   place_and_settle_reduce_only hU2 hr2 hlt2 h2⟩

-- witness evaluation sanity checks

/-- C6 witness: concrete reduce-only trades that only consume deposits. -/
theorem c6_reduce_only_witness :
    update_indexes c6_g 0 = some c6_g ∧
    get_collateral_ratio c6_g c6_a pricesOne ooEmpty = some c6_r0 ∧
    c6_r0 < c6_g.init_coll_ratio ∧
    place_order c6_g c6_a pricesOne ooEmpty 0 Side.ask 3 0 =
      some (c6_gP, c6_aP) ∧
    place_and_settle c6_g c6_a pricesOne ooEmpty 0 Side.ask 20 50 20 50 0 =
      some (c6_gS, c6_aS) ∧
    c6_aP.borrows 0 = c6_a.borrows 0 ∧
    c6_aS.borrows 0 ≤ c6_a.borrows 0 := by
  have h := c6_reduce_only c6_g c6_g c6_gP c6_g c6_g c6_gS c6_a c6_aP c6_a
    c6_aS pricesOne pricesOne ooEmpty ooEmpty 0 0 Side.ask Side.ask 3 0 0
    c6_r0 c6_r0 20 50 20 50 rfl rfl (by decide) rfl rfl rfl (by decide) rfl
  exact ⟨rfl, rfl, by decide, rfl, rfl, h.1 0, h.2 0⟩

/-- C7.  A successful `settle_borrow_unchecked` converts exactly
`min(quantity, native_borrow, native_deposit)` into shares by dividing by
the deposit and borrow indexes, and subtracts the two results from the
deposit and borrow sides of both the account and the group aggregates of
that asset, leaving every other field and token untouched. -/
theorem c7_settle_borrow_exact (g : MangoGroup) (a : MarginAccount) (i : Fin 3)
    (q nb nd : Nat) (g' : MangoGroup) (a' : MarginAccount)
    (hnb : get_native_borrow (g.indexes i) a i = some nb)
    (hnd : get_native_deposit (g.indexes i) a i = some nd)
    (h : settle_borrow_unchecked g a i q = some (g', a')) :
    a'.deposits i = a.deposits i -
      fromU64 (min (min q nb) nd) * W / (g.indexes i).deposit ∧
    a'.borrows i = a.borrows i -
      fromU64 (min (min q nb) nd) * W / (g.indexes i).borrow ∧
    g'.total_deposits i = g.total_deposits i -
      fromU64 (min (min q nb) nd) * W / (g.indexes i).deposit ∧
    g'.total_borrows i = g.total_borrows i -
      fromU64 (min (min q nb) nd) * W / (g.indexes i).borrow ∧
    g'.indexes = g.indexes ∧ a'.owner = a.owner ∧
    ∀ j, j ≠ i → a'.deposits j = a.deposits j ∧ a'.borrows j = a.borrows j ∧
      g'.total_deposits j = g.total_deposits j ∧
      g'.total_borrows j = g.total_borrows j := by
  simp only [settle_borrow_unchecked, bind, Option.bind_eq_some,
    Option.pure_def, Option.some_inj] at h
  obtain ⟨nb1, hnb1, nd1, hnd1, bs, hbs, ds, hds, ⟨g1, a1⟩, h1, h2⟩ := h
  rw [hnb] at hnb1
  rw [hnd] at hnd1
  cases hnb1; cases hnd1
  obtain ⟨_, _, rfl, rfl⟩ := checked_sub_deposit_inversion h1
  obtain ⟨_, _, rfl, rfl⟩ := checked_sub_borrow_inversion h2
  obtain ⟨_, rfl⟩ := fdiv_some hbs
  obtain ⟨_, rfl⟩ := fdiv_some hds
  refine ⟨?_, ?_, ?_, ?_, rfl, rfl, ?_⟩
  · simp [Function.update_same]
  · simp [Function.update_same]
  · simp [Function.update_same]
  · simp [Function.update_same]
  · intro j hj
    simp [Function.update_noteq hj]

/-- C7 witness: settling a concrete borrow clamps to the native borrow. -/
theorem c7_settle_borrow_exact_witness :
    get_native_borrow (c7_g.indexes 0) c7_a 0 = some 4 ∧
    get_native_deposit (c7_g.indexes 0) c7_a 0 = some 10 ∧
    settle_borrow_unchecked c7_g c7_a 0 100 = some (c7_gp, c7_ap) ∧
    c7_ap.deposits 0 = c7_a.deposits 0 -
      fromU64 (min (min 100 4) 10) * W / (c7_g.indexes 0).deposit ∧
    c7_ap.borrows 0 = c7_a.borrows 0 -
      fromU64 (min (min 100 4) 10) * W / (c7_g.indexes 0).borrow := by
  have h := c7_settle_borrow_exact c7_g c7_a 0 100 4 10 c7_gp c7_ap
    rfl rfl rfl
  exact ⟨rfl, rfl, rfl, h.1, h.2.1⟩

/-- C8.  Both indexes of every asset start at exactly one at group
initialization, with `last_update` at the genesis clock; and across any
successful sequence of `update_indexes` calls, `borrow_index`,
`deposit_index` and `last_update` of every asset are non-decreasing (a
refresh at a clock behind an index fails, so `last_update` only advances). -/
theorem c8_index_monotonicity (maint init_r ts0 : Nat)
    (limits : Fin 3 → Nat) (g g' : MangoGroup) (l : List Nat)
    (h : apply_updates g l = some g') :
    (∀ i, (init_mango_group maint init_r limits ts0).indexes i =
      ⟨ts0, fromU64 1, fromU64 1⟩) ∧
    ∀ i, (g.indexes i).borrow ≤ (g'.indexes i).borrow ∧
      (g.indexes i).deposit ≤ (g'.indexes i).deposit ∧
      (g.indexes i).last_update ≤ (g'.indexes i).last_update :=
  ⟨fun _ => rfl, apply_updates_mono h⟩

/-- C8 witness: two refreshes of a concrete pool grow the indexes. -/
theorem c8_index_monotonicity_witness :
    apply_updates c8_g [5, 10] = some c8_gp ∧
    (init_mango_group 1 2 noLimit 7).indexes 0 = ⟨7, fromU64 1, fromU64 1⟩ ∧
    (c8_g.indexes 0).borrow ≤ (c8_gp.indexes 0).borrow ∧
    (c8_g.indexes 0).deposit ≤ (c8_gp.indexes 0).deposit ∧
    (c8_g.indexes 0).last_update ≤ (c8_gp.indexes 0).last_update := by
  have h := c8_index_monotonicity 1 2 7 noLimit c8_g c8_gp [5, 10] rfl
  exact ⟨rfl, h.1 0, (h.2 0).1, (h.2 0).2.1, (h.2 0).2.2⟩

/-- C9.  When the entry ratio is below `maint_coll_ratio` but the
settle-borrow pass over all assets already restores it to at least
`maint_coll_ratio`, Liquidate returns success with exactly the settled
state: no loss socialization, no liquidator deposits, and the account's
owner unchanged. -/
theorem c9_liquidate_early_stop (g gU g2 : MangoGroup) (a a2 : MarginAccount)
    (prices : Fin 3 → Nat) (oo : OpenOrders) (dq : Fin 3 → Nat)
    (liqor ts r1 r2 : Nat)
    (hU : update_indexes g ts = some gU)
    (hr1 : get_collateral_ratio gU a prices oo = some r1)
    (hlt : r1 < gU.maint_coll_ratio)
    (hsp : liquidate_settle_pass gU a = some (g2, a2))
    (hr2 : get_collateral_ratio g2 a2 prices oo = some r2)
    (hge : g2.maint_coll_ratio ≤ r2) :
    liquidate g a prices oo dq liqor ts = some (g2, a2) ∧
      a2.owner = a.owner := by
  constructor
  · simp only [liquidate, hU, hr1, Option.some_bind, bind, Option.bind]
    rw [if_pos hlt]
    simp only [hsp, hr2, Option.some_bind, bind, Option.bind]
    rw [if_pos hge]
    rfl
  · exact liquidate_settle_pass_owner hsp

/-- C9 witness: a liquidation fully recovered by the settle pass. -/
theorem c9_liquidate_early_stop_witness :
    update_indexes c9_g 0 = some c9_g ∧
    get_collateral_ratio c9_g c9_a pricesOne ooEmpty = some c9_r1 ∧
    c9_r1 < c9_g.maint_coll_ratio ∧
    liquidate_settle_pass c9_g c9_a = some (c9_g2, c9_a2) ∧
    get_collateral_ratio c9_g2 c9_a2 pricesOne ooEmpty = some c9_r2 ∧
    c9_g2.maint_coll_ratio ≤ c9_r2 ∧
    liquidate c9_g c9_a pricesOne ooEmpty (cArr 0) 9 0 =
      some (c9_g2, c9_a2) ∧
    c9_a2.owner = c9_a.owner := by
  have h := c9_liquidate_early_stop c9_g c9_g c9_g2 c9_a c9_a2 pricesOne
    ooEmpty (cArr 0) 9 0 c9_r1 c9_r2 rfl rfl (by decide) rfl rfl (by decide)
  exact ⟨rfl, rfl, by decide, rfl, rfl, by decide, h.1, h.2⟩

/-- C10, counterexample.  The claim fails as stated: in a state whose
aggregates cover the account's shares but whose deposit index is zero (as
loss socialization can leave it), `settle_borrow_unchecked` divides the
clamped quantity by the zero deposit index and aborts. -/
theorem c10_settle_counterexample :
    (∀ j : Fin 3, c10_a.deposits j ≤ c10_g.total_deposits j ∧
      c10_a.borrows j ≤ c10_g.total_borrows j) ∧
    settle_borrow_unchecked c10_g c10_a 0 5 = none :=
  ⟨by decide, rfl⟩

/-- C10, amended.  When the group's aggregates cover the account's shares,
both indexes of the asset are nonzero, and the share values and their
native products fit the fixed-point type, `settle_borrow_unchecked` never
fails for any requested quantity: the natives are computed by truncation,
so the clamped amount divided by the respective index never exceeds the
recorded shares and the checked subtractions cannot underflow. -/
theorem c10_settle_no_failure (g : MangoGroup) (a : MarginAccount) (i : Fin 3) (q : Nat)
    (hcd : a.deposits i ≤ g.total_deposits i)
    (hcb : a.borrows i ≤ g.total_borrows i)
    (hbi : 0 < (g.indexes i).borrow) (hdi : 0 < (g.indexes i).deposit)
    (hbW : a.borrows i < FMAX) (hdW : a.deposits i < FMAX)
    (hnb_ok : a.borrows i * (g.indexes i).borrow / W < FMAX)
    (hnd_ok : a.deposits i * (g.indexes i).deposit / W < FMAX) :
    (settle_borrow_unchecked g a i q).isSome = true := by
  set bi := (g.indexes i).borrow with hbieq
  set di := (g.indexes i).deposit with hdieq
  have hnb : get_native_borrow (g.indexes i) a i =
      some (toU64 (a.borrows i * bi / W)) := by
    simp [get_native_borrow, fmul, fchk, hnb_ok, bind]
  have hnd : get_native_deposit (g.indexes i) a i =
      some (toU64 (a.deposits i * di / W)) := by
    simp [get_native_deposit, fmul, fchk, hnd_ok, bind]
  set qn := min (min q (toU64 (a.borrows i * bi / W)))
    (toU64 (a.deposits i * di / W)) with hqn
  have hqb : qn ≤ a.borrows i * bi / W / W :=
    le_trans (Nat.min_le_left _ _) (Nat.min_le_right _ _)
  have hqd : qn ≤ a.deposits i * di / W / W := Nat.min_le_right _ _
  have hb_le : fromU64 qn * W / bi ≤ a.borrows i := settle_share_le hbi hqb
  have hd_le : fromU64 qn * W / di ≤ a.deposits i := settle_share_le hdi hqd
  have hbs : fdiv (fromU64 qn) bi = some (fromU64 qn * W / bi) := by
    simp [fdiv, fchk, hbi.ne', lt_of_le_of_lt hb_le hbW]
  have hds : fdiv (fromU64 qn) di = some (fromU64 qn * W / di) := by
    simp [fdiv, fchk, hdi.ne', lt_of_le_of_lt hd_le hdW]
  obtain ⟨⟨g1, a1⟩, hs1⟩ :=
    checked_sub_deposit_exists hd_le (le_trans hd_le hcd)
  obtain ⟨hva, hvg, hg1, ha1⟩ := checked_sub_deposit_inversion hs1
  have hb1 : a1.borrows i = a.borrows i := by rw [ha1]
  have hg1b : g1.total_borrows i = g.total_borrows i := by rw [hg1]
  obtain ⟨⟨g2, a2⟩, hs2⟩ := checked_sub_borrow_exists
    (g := g1) (a := a1) (i := i) (hb1 ▸ hb_le) (hg1b ▸ le_trans hb_le hcb)
  simp only [settle_borrow_unchecked, bind, hnb, hnd, Option.some_bind]
  rw [← hqn, hbs, Option.some_bind, hds, Option.some_bind, hs1,
    Option.some_bind, hs2]
  rfl

/-- C10 witness: settling against a concrete covered account succeeds. -/
theorem c10_settle_no_failure_witness :
    c7_a.deposits 0 ≤ c7_g.total_deposits 0 ∧
    c7_a.borrows 0 ≤ c7_g.total_borrows 0 ∧
    0 < (c7_g.indexes 0).borrow ∧ 0 < (c7_g.indexes 0).deposit ∧
    c7_a.borrows 0 < FMAX ∧ c7_a.deposits 0 < FMAX ∧
    c7_a.borrows 0 * (c7_g.indexes 0).borrow / W < FMAX ∧
    c7_a.deposits 0 * (c7_g.indexes 0).deposit / W < FMAX ∧
    (settle_borrow_unchecked c7_g c7_a 0 5).isSome = true :=
  ⟨by decide, by decide, by decide, by decide, by decide, by decide,
   by decide, by decide,
   c10_settle_no_failure c7_g c7_a 0 5 (by decide) (by decide) (by decide)
     (by decide) (by decide) (by decide) (by decide) (by decide)⟩
